import Mathlib

/-!
Verification of the EDIFACT encodation module (`src/encodation/edifact.rs`)
of the `datamatrix-rs` repository.

The module is a shallow embedding: machine `u8` arithmetic is modelled on
`Nat` with an explicit `% 256` exactly where the Rust `u8` operations
truncate, fallible operations return an `Except` value paired with the
final host context (the Rust code mutates the context in place and returns
a `Result<(), EncodationError>`), and the host `EncodingContext` trait —
whose implementations live outside the given sources — is modelled from
the specification's interface section as an explicit state record.
-/

set_option linter.unusedVariables false

namespace Edifact

/-- The encodation schemes named by the host (`EncodationType` in the source).
Only `Ascii` (the default mode) and `Edifact` matter for this module. -/
inductive EncodationType where
  | Ascii
  | C40
  | Text
  | X12
  | Edifact
  | Base256
deriving DecidableEq

/-- The two error kinds this module can produce (`EncodationError`). -/
inductive EncodationError where
  | IllegalEdifactCharacter
  | NotEnoughSpace
deriving DecidableEq

/-- Modelled from the spec: the host `EncodingContext` (spec section 6).
`rest` is the unconsumed input, front first; `consumed` are the already
consumed characters, most recent first (kept so `push_back`/`backup` can
restore them); `codewords` is the output sink; `mode` is the host's
active-mode flag; `symbol_size_left` is the host's capacity query, an
opaque function of the number of additional codewords to reserve;
`switches` is an oracle stream of answers for the host's
`should_switch_mode_now` callback (an opaque boolean heuristic). -/
structure Ctx where
  rest : List Nat
  consumed : List Nat
  codewords : List Nat
  mode : EncodationType
  symbol_size_left : Nat → Option Nat
  switches : List Bool

/-- Modelled from the spec: `take_next_character` — consume and return the
next unread input character, or none when input is exhausted. -/
def Ctx.eat (c : Ctx) : Option Nat × Ctx :=
  match c.rest with
  | [] => (none, c)
  | ch :: tl => (some ch, { c with rest := tl, consumed := ch :: c.consumed })

/-- Modelled from the spec: `remaining_unconsumed_count`. -/
def Ctx.characters_left (c : Ctx) : Nat :=
  c.rest.length

/-- Modelled from the spec: `has_more_characters`. -/
def Ctx.has_more_characters (c : Ctx) : Bool :=
  !c.rest.isEmpty

/-- Modelled from the spec: `emit_codeword` — append one codeword to the
output sink. -/
def Ctx.push (c : Ctx) (cw : Nat) : Ctx :=
  { c with codewords := c.codewords ++ [cw] }

/-- Modelled from the spec: `push_back n` — un-consume the last `n`
characters taken, restoring them to the front of the unconsumed stream in
their original order. -/
def Ctx.backup (c : Ctx) (n : Nat) : Ctx :=
  { c with
    rest := (c.consumed.take n).reverse ++ c.rest,
    consumed := c.consumed.drop n }

/-- Modelled from the spec: `set_active_mode`. -/
def Ctx.set_mode (c : Ctx) (m : EncodationType) : Ctx :=
  { c with mode := m }

/-- Modelled from the spec: `should_switch_mode_now` — the host's opaque
look-ahead heuristic, modelled as consuming one answer from the oracle
stream (`false` when the stream is exhausted). -/
def Ctx.maybe_switch_mode (c : Ctx) : Bool × Ctx :=
  match c.switches with
  | [] => (false, c)
  | b :: tl => (b, { c with switches := tl })

/-- `UNLATCH`, the 6-bit unlatch sentinel (`0b011111`). -/
def UNLATCH : Nat := 0b011111

/-- `is_encodable`: the character values this mode accepts (32 to 94). -/
def is_encodable (ch : Nat) : Bool :=
  32 ≤ ch && ch ≤ 94

/-- The list of codewords one `write4` call pushes for the 1 to 4 pending
6-bit values `s` (the source pushes them one by one; `% 256` models the
`u8` truncation of the Rust shifts). -/
def write4_out (s : List Nat) : List Nat :=
  let s1 := (s[1]?.getD 0) &&& 63
  let w1 := (((s[0]?.getD 0) <<< 2) % 256) ||| (s1 >>> 4)
  if 2 ≤ s.length then
    let s2 := (s[2]?.getD 0) &&& 63
    let w2 := ((s1 <<< 4) % 256) ||| (s2 >>> 2)
    if 3 ≤ s.length then
      let s3 := (s[3]?.getD 0) &&& 63
      [w1, w2, ((s2 <<< 6) % 256) ||| s3]
    else
      [w1, w2]
  else
    [w1]

/-- `write4`: encode 1 to 4 pending values and push the resulting
codewords to the context, mirroring the source's sequential pushes. -/
def write4 (ctx : Ctx) (s : List Nat) : Ctx :=
  let s1 := (s[1]?.getD 0) &&& 63
  let ctx1 := ctx.push ((((s[0]?.getD 0) <<< 2) % 256) ||| (s1 >>> 4))
  if 2 ≤ s.length then
    let s2 := (s[2]?.getD 0) &&& 63
    let ctx2 := ctx1.push (((s1 <<< 4) % 256) ||| (s2 >>> 2))
    if 3 ≤ s.length then
      let s3 := (s[3]?.getD 0) &&& 63
      ctx2.push (((s2 <<< 6) % 256) ||| s3)
    else
      ctx2
  else
    ctx1

/-- The cheap-finish condition of `handle_end` (source lines 33 to 55):
the remaining message (pending values plus unconsumed input, 1 to 4
characters in total) fits in the tail of the symbol as 1 or 2 plain
default-mode codewords, with no unlatch needed.  `es` abstracts
`ascii::encoding_size`, which belongs to the `ascii` module outside the
given sources. -/
def cheap_finish (es : List Nat → Nat) (ctx : Ctx) (s : List Nat) : Bool :=
  let rest_chars := s.length + ctx.characters_left
  if 0 < rest_chars ∧ rest_chars ≤ 4 then
    let rest := (s ++ ctx.rest).take 4
    let ascii_size := es rest
    if ascii_size ≤ 2 then
      match (ctx.symbol_size_left ascii_size).map (fun x => x + ascii_size) with
      | some space => decide (space ≤ 2 ∧ ascii_size ≤ space)
      | none => false
    else
      false
  else
    false

/-- `handle_end`: end-of-segment handling with the pending buffer `s`
(source lines 29 to 87). Returns the `Result` value together with the
mutated context. -/
def handle_end (es : List Nat → Nat) (ctx : Ctx) (s : List Nat) :
    Except EncodationError Unit × Ctx :=
  if cheap_finish es ctx s then
    (Except.ok (), (ctx.backup s.length).set_mode EncodationType.Ascii)
  else if s.isEmpty then
    if !ctx.has_more_characters then
      match ctx.symbol_size_left 0 with
      | none => (Except.error EncodationError.NotEnoughSpace, ctx)
      | some left =>
        if 0 < left then
          (Except.ok (), (ctx.push (UNLATCH <<< 2)).set_mode EncodationType.Ascii)
        else
          (Except.ok (), ctx)
    else
      (Except.ok (), ctx.push (UNLATCH <<< 2))
  else
    match ctx.symbol_size_left s.length with
    | none => (Except.error EncodationError.NotEnoughSpace, ctx)
    | some left =>
      if 0 < left ∨ s.length = 3 then
        (Except.ok (), write4 (ctx.set_mode EncodationType.Ascii) (s ++ [UNLATCH]))
      else
        (Except.ok (), write4 ctx s)

/-- The `while let Some(ch) = ctx.eat()` loop of `encode` (source lines
91 to 112).  Each iteration consumes exactly one input character, so the
number of unconsumed characters bounds the iteration count; `fuel` is
that bound (`encode` passes exactly `ctx.rest.length`), which makes the
recursion structural. -/
def encode_loop (es : List Nat → Nat) :
    Nat → Ctx → List Nat → Except EncodationError Unit × Ctx
  | 0, ctx, symbols => handle_end es ctx symbols
  | fuel + 1, ctx, symbols =>
    match ctx.eat with
    | (none, _) => handle_end es ctx symbols
    | (some ch, ctx1) =>
      if is_encodable ch then
        let symbols1 := symbols ++ [ch]
        if symbols1.length = 4 then
          let ms := (write4 ctx1 symbols1).maybe_switch_mode
          if ms.1 then
            handle_end es ms.2 []
          else
            encode_loop es fuel ms.2 []
        else
          encode_loop es fuel ctx1 symbols1
      else
        (Except.error EncodationError.IllegalEdifactCharacter, ctx1)

/-- `encode`: the EDIFACT entry point (source lines 89 to 114). -/
def encode (es : List Nat → Nat) (ctx : Ctx) : Except EncodationError Unit × Ctx :=
  encode_loop es ctx.rest.length ctx []

/-- The packing formula exactly as the specification words it, for
comparison with `write4`: codeword 1 is value 1 shifted left by 2 or-ed
with the high 2 bits of value 2; codeword 2 is the low 4 bits of value 2
shifted left by 4 or-ed with the high 4 bits of value 3; codeword 3 is
the low 2 bits of value 3 shifted left by 6 or-ed with value 4; missing
tail values count as zero, and k values yield 1, 2, 3, 3 codewords for
k = 1, 2, 3, 4. -/
def pack_spec (s : List Nat) : List Nat :=
  let v1 := s[0]?.getD 0
  let v2 := s[1]?.getD 0
  let v3 := s[2]?.getD 0
  let v4 := s[3]?.getD 0
  let w1 := (v1 <<< 2) ||| (v2 >>> 4)
  let w2 := ((v2 &&& 15) <<< 4) ||| (v3 >>> 2)
  let w3 := ((v3 &&& 3) <<< 6) ||| v4
  if s.length = 1 then [w1]
  else if s.length = 2 then [w1, w2]
  else [w1, w2, w3]

/-- The standard 6-to-8-bit expansion named by the specification's
round-trip property: recover the four 6-bit values from three packed
codewords. -/
def unpack3 (w : List Nat) : List Nat :=
  let w1 := w[0]?.getD 0
  let w2 := w[1]?.getD 0
  let w3 := w[2]?.getD 0
  [w1 >>> 2,
   ((w1 &&& 3) <<< 4) ||| (w2 >>> 4),
   ((w2 &&& 15) <<< 2) ||| (w3 >>> 6),
   w3 &&& 63]

/-- The codewords the consumption loop flushes for an input prefix:
one `write4` per complete group of four characters, a trailing partial
group producing nothing. -/
def full_group_codewords : List Nat → List Nat
  | a :: b :: c :: d :: tl => write4_out [a, b, c, d] ++ full_group_codewords tl
  | _ => []

/-- Modelled from the spec: a concrete stand-in for `ascii::encoding_size`
(the `ascii` module is not among the given sources), used only to
instantiate witnesses; following the specification's example, the two
letters of the tail `"AB"` need two default-mode codewords, one codeword
per character. -/
def ascii_size_model (l : List Nat) : Nat :=
  l.length

/-- A host context with empty input and output, used to instantiate
witnesses. -/
def ctxW : Ctx :=
  { rest := []
    consumed := []
    codewords := []
    mode := EncodationType.Edifact
    symbol_size_left := fun _ => none
    switches := [] }

/-- Witness context for the cheap-finish check: the input tail is the two
encodable characters of `"AB"` and exactly two codewords of symbol space
remain. -/
def ctxAB : Ctx :=
  { rest := [65, 66]
    consumed := []
    codewords := []
    mode := EncodationType.Edifact
    symbol_size_left := fun n => some (2 - n)
    switches := [] }

/-- Witness context at end of data with `k` codewords of space left. -/
def ctxEod (k : Nat) : Ctx :=
  { rest := []
    consumed := []
    codewords := []
    mode := EncodationType.Edifact
    symbol_size_left := fun _ => some k
    switches := [] }

/-- Witness context at end of data whose host cannot report capacity. -/
def ctxNoCap : Ctx :=
  { rest := []
    consumed := []
    codewords := []
    mode := EncodationType.Edifact
    symbol_size_left := fun _ => none
    switches := [] }

/-- Witness context for the externally requested mode switch: one
character is still unconsumed and the cheap-finish capacity query reports
no symbol-size information. -/
def ctxSwitch : Ctx :=
  { rest := [65]
    consumed := []
    codewords := []
    mode := EncodationType.Edifact
    symbol_size_left := fun _ => none
    switches := [] }

/-- Witness context whose input holds an illegal character (the byte 0)
after five encodable ones. -/
def ctxIll : Ctx :=
  { rest := [65, 66, 67, 68, 69, 0, 70]
    consumed := []
    codewords := []
    mode := EncodationType.Edifact
    symbol_size_left := fun _ => some 10
    switches := [] }

theorem and_63_eq_mod (x : Nat) : x &&& 63 = x % 64 := by
  simpa using Nat.and_pow_two_sub_one_eq_mod x 6

theorem and_15_eq_mod (x : Nat) : x &&& 15 = x % 16 := by
  simpa using Nat.and_pow_two_sub_one_eq_mod x 4

theorem and_3_eq_mod (x : Nat) : x &&& 3 = x % 4 := by
  simpa using Nat.and_pow_two_sub_one_eq_mod x 2

theorem or_mul_pow {k x y : Nat} (hy : y < 2 ^ k) : x * 2 ^ k ||| y = x * 2 ^ k + y := by
  rw [Nat.mul_comm x (2 ^ k)]
  exact (Nat.mul_add_lt_is_or hy x).symm

theorem or_mul_four {x y : Nat} (hy : y < 4) : x * 4 ||| y = x * 4 + y := by
  have h : y < 2 ^ 2 := by simpa using hy
  simpa using or_mul_pow (x := x) h

theorem or_mul_sixteen {x y : Nat} (hy : y < 16) : x * 16 ||| y = x * 16 + y := by
  have h : y < 2 ^ 4 := by simpa using hy
  simpa using or_mul_pow (x := x) h

theorem or_mul_sixtyfour {x y : Nat} (hy : y < 64) : x * 64 ||| y = x * 64 + y := by
  have h : y < 2 ^ 6 := by simpa using hy
  simpa using or_mul_pow (x := x) h

/-- `write4` only appends `write4_out s` to the output sink; every other
context field is untouched. -/
theorem write4_eq (ctx : Ctx) (s : List Nat) :
    write4 ctx s = { ctx with codewords := ctx.codewords ++ write4_out s } := by
  simp only [write4, write4_out, Ctx.push]
  split_ifs <;> simp [List.append_assoc]

/-- `write4_out` agrees with the specification's packing formula on 6-bit
inputs of length 1 to 4. -/
theorem write4_out_eq_pack_spec (s : List Nat) (h1 : 1 ≤ s.length) (h4 : s.length ≤ 4)
    (hb : ∀ v ∈ s, v < 64) : write4_out s = pack_spec s := by
  rcases s with _ | ⟨a, _ | ⟨b, _ | ⟨c, _ | ⟨d, _ | ⟨e, t⟩⟩⟩⟩⟩
  · simp at h1
  · have ha : a < 64 := hb a (by simp)
    have e1 : (a <<< 2) % 256 = a <<< 2 := by
      rw [Nat.shiftLeft_eq]
      norm_num
      omega
    simp [write4_out, pack_spec, e1]
  · have ha : a < 64 := hb a (by simp)
    have hb2 : b < 64 := hb b (by simp)
    have e1 : ((a <<< 2) % 256) ||| ((b &&& 63) >>> 4) = (a <<< 2) ||| (b >>> 4) := by
      simp only [and_63_eq_mod, Nat.shiftLeft_eq, Nat.shiftRight_eq_div_pow]
      norm_num
      congr 1 <;> omega
    have e2 : ((b &&& 63) <<< 4) % 256 = (b &&& 15) <<< 4 := by
      simp only [and_63_eq_mod, and_15_eq_mod, Nat.shiftLeft_eq]
      norm_num
      omega
    simp [write4_out, pack_spec, e1, e2]
  · have ha : a < 64 := hb a (by simp)
    have hb2 : b < 64 := hb b (by simp)
    have hc : c < 64 := hb c (by simp)
    have e1 : ((a <<< 2) % 256) ||| ((b &&& 63) >>> 4) = (a <<< 2) ||| (b >>> 4) := by
      simp only [and_63_eq_mod, Nat.shiftLeft_eq, Nat.shiftRight_eq_div_pow]
      norm_num
      congr 1 <;> omega
    have e2 : (((b &&& 63) <<< 4) % 256) ||| ((c &&& 63) >>> 2) =
        ((b &&& 15) <<< 4) ||| (c >>> 2) := by
      simp only [and_63_eq_mod, and_15_eq_mod, Nat.shiftLeft_eq, Nat.shiftRight_eq_div_pow]
      norm_num
      congr 1 <;> omega
    have e3 : ((c &&& 63) <<< 6) % 256 = (c &&& 3) <<< 6 := by
      simp only [and_63_eq_mod, and_3_eq_mod, Nat.shiftLeft_eq]
      norm_num
      omega
    simp [write4_out, pack_spec, e1, e2, e3]
  · have ha : a < 64 := hb a (by simp)
    have hb2 : b < 64 := hb b (by simp)
    have hc : c < 64 := hb c (by simp)
    have hd : d < 64 := hb d (by simp)
    have e1 : ((a <<< 2) % 256) ||| ((b &&& 63) >>> 4) = (a <<< 2) ||| (b >>> 4) := by
      simp only [and_63_eq_mod, Nat.shiftLeft_eq, Nat.shiftRight_eq_div_pow]
      norm_num
      congr 1 <;> omega
    have e2 : (((b &&& 63) <<< 4) % 256) ||| ((c &&& 63) >>> 2) =
        ((b &&& 15) <<< 4) ||| (c >>> 2) := by
      simp only [and_63_eq_mod, and_15_eq_mod, Nat.shiftLeft_eq, Nat.shiftRight_eq_div_pow]
      norm_num
      congr 1 <;> omega
    have e3 : (((c &&& 63) <<< 6) % 256) ||| (d &&& 63) = ((c &&& 3) <<< 6) ||| d := by
      simp only [and_63_eq_mod, and_3_eq_mod, Nat.shiftLeft_eq]
      norm_num
      congr 1 <;> omega
    simp [write4_out, pack_spec, e1, e2, e3]
  · simp only [List.length_cons] at h4
    omega

theorem pack_spec_length (s : List Nat) (h1 : 1 ≤ s.length) (h4 : s.length ≤ 4) :
    (pack_spec s).length = min s.length 3 := by
  rcases s with _ | ⟨a, _ | ⟨b, _ | ⟨c, _ | ⟨d, _ | ⟨e, t⟩⟩⟩⟩⟩ <;>
    simp_all [pack_spec]

/-- C4: `write4`, given `k` pending 6-bit values with `1 ≤ k ≤ 4`, emits
exactly `min k 3` codewords (1, 2, 3, 3 for k = 1, 2, 3, 4), and the
emitted codewords follow the specification's repacking formula
(`pack_spec`, missing tail values counting as zero); in particular the
two literal packings of the claim hold. -/
theorem write4_matches_pack_spec (ctx : Ctx) (s : List Nat) (h1 : 1 ≤ s.length)
    (h4 : s.length ≤ 4) (hb : ∀ v ∈ s, v < 64) :
    (write4 ctx s).codewords = ctx.codewords ++ pack_spec s ∧
    (pack_spec s).length = min s.length 3 ∧
    write4_out [0b100100, 0b110110, 0b011010, 1] = [0b10010011, 0b01100110, 0b10000001] ∧
    write4_out [0b100100, 0b110110, 0b011010] = [0b10010011, 0b01100110, 0b10000000] := by
  refine ⟨?_, pack_spec_length s h1 h4, by decide, by decide⟩
  rw [write4_eq, write4_out_eq_pack_spec s h1 h4 hb]

/-- Witness for C4 at the claim's literal input. -/
theorem write4_matches_pack_spec_witness :
    (write4 ctxW [0b100100, 0b110110, 0b011010, 1]).codewords =
      ctxW.codewords ++ pack_spec [0b100100, 0b110110, 0b011010, 1] ∧
    (pack_spec [0b100100, 0b110110, 0b011010, 1]).length =
      min ([0b100100, 0b110110, 0b011010, 1] : List Nat).length 3 ∧
    write4_out [0b100100, 0b110110, 0b011010, 1] = [0b10010011, 0b01100110, 0b10000001] ∧
    write4_out [0b100100, 0b110110, 0b011010] = [0b10010011, 0b01100110, 0b10000000] :=
  write4_matches_pack_spec ctxW [0b100100, 0b110110, 0b011010, 1]
    (by decide) (by decide) (by decide)

/-- `write4_out` on a full group of four 6-bit values, in div/mod form. -/
theorem write4_out_arith (a b c d : Nat) (ha : a < 64) (hb : b < 64) (hc : c < 64)
    (hd : d < 64) :
    write4_out [a, b, c, d] = [a * 4 + b / 16, b % 16 * 16 + c / 4, c % 4 * 64 + d] := by
  have e1 : ((a <<< 2) % 256) ||| ((b &&& 63) >>> 4) = a * 4 + b / 16 := by
    simp only [and_63_eq_mod, Nat.shiftLeft_eq, Nat.shiftRight_eq_div_pow]
    norm_num
    rw [show a * 4 % 256 = a * 4 from by omega, show b % 64 / 16 = b / 16 from by omega]
    rw [or_mul_four (by omega)]
  have e2 : (((b &&& 63) <<< 4) % 256) ||| ((c &&& 63) >>> 2) = b % 16 * 16 + c / 4 := by
    simp only [and_63_eq_mod, Nat.shiftLeft_eq, Nat.shiftRight_eq_div_pow]
    norm_num
    rw [show b % 64 * 16 % 256 = b % 16 * 16 from by omega,
      show c % 64 / 4 = c / 4 from by omega]
    rw [or_mul_sixteen (by omega)]
  have e3 : (((c &&& 63) <<< 6) % 256) ||| (d &&& 63) = c % 4 * 64 + d := by
    simp only [and_63_eq_mod, Nat.shiftLeft_eq]
    norm_num
    rw [show c % 64 * 64 % 256 = c % 4 * 64 from by omega, show d % 64 = d from by omega]
    rw [or_mul_sixtyfour (by omega)]
  simp [write4_out, e1, e2, e3]

/-- Unpacking the arithmetic form of a packed full group recovers the
four values. -/
theorem unpack3_arith (a b c d : Nat) (ha : a < 64) (hb : b < 64) (hc : c < 64)
    (hd : d < 64) :
    unpack3 [a * 4 + b / 16, b % 16 * 16 + c / 4, c % 4 * 64 + d] = [a, b, c, d] := by
  have u1 : (a * 4 + b / 16) >>> 2 = a := by
    rw [Nat.shiftRight_eq_div_pow]
    norm_num
    omega
  have u2 : (((a * 4 + b / 16) &&& 3) <<< 4) ||| ((b % 16 * 16 + c / 4) >>> 4) = b := by
    simp only [and_3_eq_mod, Nat.shiftLeft_eq, Nat.shiftRight_eq_div_pow]
    norm_num
    rw [show (a * 4 + b / 16) % 4 = b / 16 from by omega,
      show (b % 16 * 16 + c / 4) / 16 = b % 16 from by omega]
    rw [or_mul_sixteen (by omega)]
    omega
  have u3 : (((b % 16 * 16 + c / 4) &&& 15) <<< 2) ||| ((c % 4 * 64 + d) >>> 6) = c := by
    simp only [and_15_eq_mod, Nat.shiftLeft_eq, Nat.shiftRight_eq_div_pow]
    norm_num
    rw [show (b % 16 * 16 + c / 4) % 16 = c / 4 from by omega,
      show (c % 4 * 64 + d) / 64 = c % 4 from by omega]
    rw [or_mul_four (by omega)]
    omega
  have u4 : (c % 4 * 64 + d) &&& 63 = d := by
    rw [and_63_eq_mod]
    omega
  simp [unpack3, u1, u2, u3, u4]

/-- C7: packing any full group of four 6-bit values with `write4` and
unpacking the three emitted codewords with the standard 6-to-8-bit
expansion recovers the original values. -/
theorem write4_unpack_roundtrip (ctx : Ctx) (a b c d : Nat) (ha : a < 64) (hb : b < 64)
    (hc : c < 64) (hd : d < 64) :
    unpack3 (((write4 ctx [a, b, c, d]).codewords).drop ctx.codewords.length) =
      [a, b, c, d] := by
  rw [write4_eq]
  simp only [List.drop_left]
  rw [write4_out_arith a b c d ha hb hc hd]
  exact unpack3_arith a b c d ha hb hc hd

/-- Witness for C7 at a concrete full group. -/
theorem write4_unpack_roundtrip_witness :
    unpack3 (((write4 ctxW [10, 20, 30, 40]).codewords).drop ctxW.codewords.length) =
      [10, 20, 30, 40] :=
  write4_unpack_roundtrip ctxW 10 20 30 40 (by decide) (by decide) (by decide) (by decide)

/-- C1: when the cheap-finish check applies (1 to 4 remaining characters,
default-mode size of the tail at most 2 codewords, remaining space after
the reservation at most 2 and not exceeded by that size — the last bound
being `h6`), `handle_end` emits nothing, pushes all pending characters
back onto the unconsumed stream, switches the mode to ASCII and returns
success.  `hcons` records that the pending values are exactly the most
recently consumed characters, which is how the consumption loop calls
`handle_end`. -/
theorem handle_end_cheap_finish (es : List Nat → Nat) (ctx : Ctx) (s : List Nat) (x : Nat)
    (h1 : 0 < s.length + ctx.rest.length)
    (h2 : s.length + ctx.rest.length ≤ 4)
    (h3 : es ((s ++ ctx.rest).take 4) ≤ 2)
    (h4 : ctx.symbol_size_left (es ((s ++ ctx.rest).take 4)) = some x)
    (h5 : x + es ((s ++ ctx.rest).take 4) ≤ 2)
    (h6 : es ((s ++ ctx.rest).take 4) ≤ x + es ((s ++ ctx.rest).take 4))
    (hcons : ctx.consumed.take s.length = s.reverse) :
    handle_end es ctx s =
      (Except.ok (),
       { ctx with
         rest := s ++ ctx.rest
         consumed := ctx.consumed.drop s.length
         mode := EncodationType.Ascii }) := by
  have hcf : cheap_finish es ctx s = true := by
    simp [cheap_finish, Ctx.characters_left, h1, h2, h3, h4, h5, h6]
  simp [handle_end, hcf, Ctx.backup, Ctx.set_mode, hcons]

/-- Witness for C1 at the specification's example: the tail `"AB"` with
exactly two codewords of space left. -/
theorem handle_end_cheap_finish_witness :
    handle_end ascii_size_model ctxAB [] =
      (Except.ok (),
       { ctxAB with
         rest := [] ++ ctxAB.rest
         consumed := ctxAB.consumed.drop (List.length ([] : List Nat))
         mode := EncodationType.Ascii }) :=
  handle_end_cheap_finish ascii_size_model ctxAB [] 0 (by decide) (by decide) (by decide)
    rfl (by decide) (by decide) rfl

/-- C2: at end of data with exactly 3 pending values and the cheap-finish
check not applying, `handle_end` appends the unlatch sentinel before the
final flush, switches the mode to the default, and the flush emits
exactly 3 codewords — for every value the capacity query reports. -/
theorem handle_end_three_pending (es : List Nat → Nat) (ctx : Ctx) (a b c x : Nat)
    (hrest : ctx.rest = [])
    (hcf : cheap_finish es ctx [a, b, c] = false)
    (hx : ctx.symbol_size_left 3 = some x) :
    handle_end es ctx [a, b, c] =
      (Except.ok (),
       { ctx with
         mode := EncodationType.Ascii
         codewords := ctx.codewords ++ write4_out [a, b, c, UNLATCH] }) ∧
    (write4_out [a, b, c, UNLATCH]).length = 3 := by
  constructor
  · simp [handle_end, hcf, hx, write4_eq, Ctx.set_mode]
  · simp [write4_out]

/-- Witness for C2 with three pending values and zero remaining space. -/
theorem handle_end_three_pending_witness :
    handle_end ascii_size_model (ctxEod 0) [30, 31, 32] =
      (Except.ok (),
       { ctxEod 0 with
         mode := EncodationType.Ascii
         codewords := (ctxEod 0).codewords ++ write4_out [30, 31, 32, UNLATCH] }) ∧
    (write4_out [30, 31, 32, UNLATCH]).length = 3 :=
  handle_end_three_pending ascii_size_model (ctxEod 0) 30 31 32 0 rfl rfl rfl

/-- C3: at end of data with an empty pending buffer and no more input,
`handle_end` emits the single padding codeword `UNLATCH <<< 2` and
switches the mode exactly when the capacity query reports space left;
with zero space it emits nothing and leaves the context unchanged. -/
theorem handle_end_empty_eod (es : List Nat → Nat) (ctx : Ctx) (x : Nat)
    (hrest : ctx.rest = [])
    (hx : ctx.symbol_size_left 0 = some x) :
    handle_end es ctx [] =
      if 0 < x then
        (Except.ok (),
         { ctx with
           codewords := ctx.codewords ++ [UNLATCH <<< 2]
           mode := EncodationType.Ascii })
      else
        (Except.ok (), ctx) := by
  have hcf : cheap_finish es ctx [] = false := by
    simp [cheap_finish, Ctx.characters_left, hrest]
  by_cases hpos : 0 < x
  · simp [handle_end, hcf, Ctx.has_more_characters, hrest, hx, hpos, Ctx.push, Ctx.set_mode]
  · simp [handle_end, hcf, Ctx.has_more_characters, hrest, hx, hpos]

/-- Witness for C3 with one codeword of space left. -/
theorem handle_end_empty_eod_witness :
    handle_end ascii_size_model (ctxEod 1) [] =
      if 0 < 1 then
        (Except.ok (),
         { ctxEod 1 with
           codewords := (ctxEod 1).codewords ++ [UNLATCH <<< 2]
           mode := EncodationType.Ascii })
      else
        (Except.ok (), ctxEod 1) :=
  handle_end_empty_eod ascii_size_model (ctxEod 1) 1 rfl rfl

/-- C6: when the capacity query needed to decide end-of-segment padding
reports no symbol-size information, `handle_end` fails with the
not-enough-space error and leaves the context untouched; `encode` hands
the `handle_end` result to its caller unchanged (second conjunct, for the
end-of-input entry into end-of-segment handling). -/
theorem handle_end_no_capacity (es : List Nat → Nat) (ctx : Ctx) (s : List Nat)
    (hrest : ctx.rest = [])
    (hcf : cheap_finish es ctx s = false)
    (hnone : ctx.symbol_size_left s.length = none) :
    handle_end es ctx s = (Except.error EncodationError.NotEnoughSpace, ctx) ∧
    encode es ctx = handle_end es ctx [] := by
  constructor
  · rcases s with _ | ⟨h0, t⟩
    · simp only [List.length_nil] at hnone
      simp [handle_end, hcf, Ctx.has_more_characters, hrest, hnone]
    · simp only [List.length_cons] at hnone
      simp [handle_end, hcf, hnone]
  · simp [encode, hrest, encode_loop]

/-- Witness for C6 with an empty pending buffer and a host that cannot
report capacity. -/
theorem handle_end_no_capacity_witness :
    handle_end ascii_size_model ctxNoCap [] =
      (Except.error EncodationError.NotEnoughSpace, ctxNoCap) ∧
    encode ascii_size_model ctxNoCap = handle_end ascii_size_model ctxNoCap [] :=
  handle_end_no_capacity ascii_size_model ctxNoCap [] rfl rfl rfl

/-- C9: with an empty pending buffer, more input remaining (the loop was
stopped by an externally requested mode switch) and the cheap-finish
check not applying, `handle_end` emits exactly one unlatch codeword and
leaves the host's active-mode flag unchanged. -/
theorem handle_end_switch_unlatch (es : List Nat → Nat) (ctx : Ctx)
    (hcf : cheap_finish es ctx [] = false)
    (hmore : ctx.rest ≠ []) :
    handle_end es ctx [] =
      (Except.ok (), { ctx with codewords := ctx.codewords ++ [UNLATCH <<< 2] }) := by
  rcases hr : ctx.rest with _ | ⟨ch, tl⟩
  · exact absurd hr hmore
  · simp [handle_end, hcf, Ctx.has_more_characters, hr, Ctx.push]

/-- Witness for C9: one unconsumed character, no capacity information,
so the cheap-finish check cannot apply. -/
theorem handle_end_switch_unlatch_witness :
    handle_end ascii_size_model ctxSwitch [] =
      (Except.ok (),
       { ctxSwitch with codewords := ctxSwitch.codewords ++ [UNLATCH <<< 2] }) :=
  handle_end_switch_unlatch ascii_size_model ctxSwitch rfl (by decide)

theorem full_group_codewords_short (l : List Nat) (h : l.length ≤ 3) :
    full_group_codewords l = [] := by
  rcases l with _ | ⟨a, _ | ⟨b, _ | ⟨c, _ | ⟨d, t⟩⟩⟩⟩ <;>
    simp_all [full_group_codewords]

/-- Running the consumption loop over an encodable prefix `pre` followed
by an illegal character `bad`: the loop errors out after flushing
exactly the complete groups of four, having consumed `pre` and `bad`,
with `bad` not pushed back and the trailing partial group neither
emitted nor restored.  `fuel` bounds the iterations; the switch oracle
is the all-`false` stream. -/
theorem encode_loop_illegal_run (es : List Nat → Nat) (pre : List Nat) (bad : Nat)
    (suf : List Nat) (fuel : Nat) (ctx : Ctx) (symbols : List Nat)
    (hrest : ctx.rest = pre ++ bad :: suf)
    (hpre : ∀ c0 ∈ pre, is_encodable c0 = true)
    (hbad : is_encodable bad = false)
    (hsw : ctx.switches = [])
    (hsym : symbols.length ≤ 3)
    (hfuel : pre.length < fuel) :
    encode_loop es fuel ctx symbols =
      (Except.error EncodationError.IllegalEdifactCharacter,
       { ctx with
         rest := suf
         consumed := bad :: pre.reverse ++ ctx.consumed
         codewords := ctx.codewords ++ full_group_codewords (symbols ++ pre) }) := by
  induction pre generalizing fuel ctx symbols with
  | nil =>
    rcases fuel with _ | f
    · omega
    · simp only [List.nil_append] at hrest
      simp [encode_loop, Ctx.eat, hrest, hbad, full_group_codewords_short symbols hsym]
  | cons p pr ih =>
    rcases fuel with _ | f
    · omega
    · have hp : is_encodable p = true := hpre p (by simp)
      have hpr : ∀ c0 ∈ pr, is_encodable c0 = true := fun c0 hc => hpre c0 (by simp [hc])
      simp only [List.cons_append] at hrest
      by_cases h4 : (symbols ++ [p]).length = 4
      · have h3 : symbols.length = 3 := by
          simp only [List.length_append, List.length_cons, List.length_nil] at h4
          omega
        obtain ⟨x, y, z, rfl⟩ := List.length_eq_three.mp h3
        have step := ih f
          { ctx with
            rest := pr ++ bad :: suf
            consumed := p :: ctx.consumed
            codewords := ctx.codewords ++ write4_out [x, y, z, p] }
          [] rfl hpr hsw (by simp) (by simp at hfuel; omega)
        simp only [encode_loop, Ctx.eat, hrest, hp, if_true, List.cons_append,
          List.nil_append, List.length_cons, List.length_nil, write4_eq,
          Ctx.maybe_switch_mode, hsw] at step ⊢
        rw [if_neg (by decide : ¬(false = true)), step]
        simp [full_group_codewords, List.reverse_cons, List.append_assoc]
      · have hsym1 : (symbols ++ [p]).length ≤ 3 := by
          simp only [List.length_append, List.length_cons, List.length_nil] at h4 ⊢
          omega
        have step := ih f
          { ctx with rest := pr ++ bad :: suf, consumed := p :: ctx.consumed }
          (symbols ++ [p]) rfl hpr hsw hsym1 (by simp at hfuel; omega)
        simp only [encode_loop, Ctx.eat, hrest, hp, if_true] at step ⊢
        rw [if_neg h4, step]
        simp [List.reverse_cons, List.append_assoc]

/-- C5: a character taken by `encode` lying outside the encodable range
32 to 94 makes the whole operation fail immediately with the
illegal-character error, and the emitted codewords are exactly the
flushed complete groups of the encodable prefix — none for the illegal
character. -/
theorem encode_illegal_char_fails (es : List Nat → Nat) (ctx : Ctx) (pre : List Nat)
    (bad : Nat) (suf : List Nat)
    (hrest : ctx.rest = pre ++ bad :: suf)
    (hpre : ∀ c0 ∈ pre, is_encodable c0 = true)
    (hbad : is_encodable bad = false)
    (hsw : ctx.switches = []) :
    (encode es ctx).1 = Except.error EncodationError.IllegalEdifactCharacter ∧
    (encode es ctx).2.codewords = ctx.codewords ++ full_group_codewords pre := by
  have h := encode_loop_illegal_run es pre bad suf ctx.rest.length ctx [] hrest hpre hbad
    hsw (by simp) (by rw [hrest]; simp)
  constructor <;> simp [encode, h]

/-- Witness for C5: five encodable characters, then the byte 0. -/
theorem encode_illegal_char_fails_witness :
    (encode ascii_size_model ctxIll).1 = Except.error EncodationError.IllegalEdifactCharacter ∧
    (encode ascii_size_model ctxIll).2.codewords =
      ctxIll.codewords ++ full_group_codewords [65, 66, 67, 68, 69] :=
  encode_illegal_char_fails ascii_size_model ctxIll [65, 66, 67, 68, 69] 0 [70]
    (by decide) (by decide) (by decide) rfl

/-- C10: the illegal-character failure is not atomic: the offending
character has been consumed (it heads the consumed stack and is not in
the remaining input), and the 1 to 3 characters of the trailing partial
group are discarded — the codewords hold only the complete groups and
the unconsumed stream is exactly the suffix after the offender. -/
theorem encode_illegal_char_state (es : List Nat → Nat) (ctx : Ctx) (pre : List Nat)
    (bad : Nat) (suf : List Nat)
    (hrest : ctx.rest = pre ++ bad :: suf)
    (hpre : ∀ c0 ∈ pre, is_encodable c0 = true)
    (hbad : is_encodable bad = false)
    (hsw : ctx.switches = []) :
    encode es ctx =
      (Except.error EncodationError.IllegalEdifactCharacter,
       { ctx with
         rest := suf
         consumed := bad :: pre.reverse ++ ctx.consumed
         codewords := ctx.codewords ++ full_group_codewords pre }) := by
  have h := encode_loop_illegal_run es pre bad suf ctx.rest.length ctx [] hrest hpre hbad
    hsw (by simp) (by rw [hrest]; simp)
  simpa [encode] using h

/-- Witness for C10 at the same input as the C5 witness: the buffer held
`[69]` when the byte 0 was eaten, and `69` is neither flushed nor
restored. -/
theorem encode_illegal_char_state_witness :
    encode ascii_size_model ctxIll =
      (Except.error EncodationError.IllegalEdifactCharacter,
       { ctxIll with
         rest := [70]
         consumed := 0 :: [65, 66, 67, 68, 69].reverse ++ ctxIll.consumed
         codewords := ctxIll.codewords ++ full_group_codewords [65, 66, 67, 68, 69] }) :=
  encode_illegal_char_state ascii_size_model ctxIll [65, 66, 67, 68, 69] 0 [70]
    (by decide) (by decide) (by decide) rfl

/-- Any run of the consumption loop started with at most 3 pending
values either fails on an illegal character or reaches end-of-segment
handling with a pending buffer of at most 3 values: the buffer is
flushed and cleared as soon as it reaches 4. -/
theorem encode_loop_ends_small (es : List Nat → Nat) (fuel : Nat) :
    ∀ ctx symbols, symbols.length ≤ 3 →
      (∃ c2, encode_loop es fuel ctx symbols =
        (Except.error EncodationError.IllegalEdifactCharacter, c2)) ∨
      (∃ c2 s2, s2.length ≤ 3 ∧ encode_loop es fuel ctx symbols = handle_end es c2 s2) := by
  induction fuel with
  | zero =>
    intro ctx symbols h
    exact Or.inr ⟨ctx, symbols, h, rfl⟩
  | succ f ih =>
    intro ctx symbols h
    rcases hr : ctx.rest with _ | ⟨ch, tl⟩
    · refine Or.inr ⟨ctx, symbols, h, ?_⟩
      simp [encode_loop, Ctx.eat, hr]
    · by_cases he : is_encodable ch
      · by_cases h4 : (symbols ++ [ch]).length = 4
        · by_cases hms :
            ((write4 { ctx with rest := tl, consumed := ch :: ctx.consumed }
              (symbols ++ [ch])).maybe_switch_mode).1
          · refine Or.inr ⟨((write4 { ctx with rest := tl, consumed := ch :: ctx.consumed }
              (symbols ++ [ch])).maybe_switch_mode).2, [], by simp, ?_⟩
            simp [encode_loop, Ctx.eat, hr, he, h4, hms]
          · have heq : encode_loop es (f + 1) ctx symbols =
                encode_loop es f
                  ((write4 { ctx with rest := tl, consumed := ch :: ctx.consumed }
                    (symbols ++ [ch])).maybe_switch_mode).2 [] := by
              simp [encode_loop, Ctx.eat, hr, he, h4, hms]
            rw [heq]
            exact ih _ [] (by simp)
        · have h4n : symbols.length ≠ 3 := by
            intro hh
            apply h4
            simp [hh]
          have heq : encode_loop es (f + 1) ctx symbols =
              encode_loop es f { ctx with rest := tl, consumed := ch :: ctx.consumed }
                (symbols ++ [ch]) := by
            simp [encode_loop, Ctx.eat, hr, he, h4n]
          have hsym1 : (symbols ++ [ch]).length ≤ 3 := by
            simp only [List.length_append, List.length_cons, List.length_nil] at h4 ⊢
            omega
          rw [heq]
          exact ih _ _ hsym1
      · refine Or.inl ⟨{ ctx with rest := tl, consumed := ch :: ctx.consumed }, ?_⟩
        simp [encode_loop, Ctx.eat, hr, he]

/-- C8: every run of `encode` either fails on an illegal character or
hands control to end-of-segment handling with between 0 and 3 pending
values — the pending group is flushed and cleared as soon as it reaches
4, so it never exceeds 4 values. -/
theorem encode_ends_with_small_buffer (es : List Nat → Nat) (ctx : Ctx) :
    (∃ c2, encode es ctx = (Except.error EncodationError.IllegalEdifactCharacter, c2)) ∨
    (∃ c2 s2, s2.length ≤ 3 ∧ encode es ctx = handle_end es c2 s2) := by
  simpa [encode] using encode_loop_ends_small es ctx.rest.length ctx [] (by simp)

end Edifact
